import Mathlib

/-!
Verification of the xyztiles tile-math and image-extraction pipeline.

The Go source (`src/tilemath/tilemath.go` and the `imagery` package) is
shallowly embedded below.  Go's 64-bit signed `int` arithmetic is modelled
on `ℤ` with an explicit two's-complement reduction `wrap64` at every
operation that can leave the `int64` range (the shift `1 << uint(z)` and
the `n - 1` / `x + 1` adjustments); `float64` arithmetic is idealised as
exact real arithmetic on `ℝ`, and the Go conversion `int(f)` (truncation
toward zero) is modelled by `goTrunc`.  Errors built with `fmt.Errorf` are
modelled by the inductive `Err`, one constructor per format string, with
`%w`-wrapping modelled by a wrapping constructor.
-/

namespace XyzTiles

/-- Two's-complement reduction of a mathematical integer into the signed
64-bit range `[-2^63, 2^63)`, the semantics of Go `int` arithmetic on a
64-bit platform. -/
def wrap64 (a : ℤ) : ℤ := (a + 2 ^ 63) % 2 ^ 64 - 2 ^ 63

/-- Go `n := 1 << uint(z)` at type `int`: for `z ≤ 62` this is `2 ^ z`, at
`z = 63` it wraps to `-2^63`, and for `z ≥ 64` Go defines the result of the
over-wide shift as `0`; all three cases coincide with `wrap64 (2 ^ z)`. -/
def shl1 (z : ℕ) : ℤ := wrap64 (2 ^ z)

/-- Geographic bounds in decimal degrees (EPSG:4326); from `tilemath.Bounds`. -/
structure Bounds where
  West : ℝ
  South : ℝ
  East : ℝ
  North : ℝ

/-- An XYZ tile coordinate; from `tilemath.TileCoord`. -/
structure TileCoord where
  Z : ℤ
  X : ℤ
  Y : ℤ

/-- The `error` values produced by the pipeline, one constructor per
`fmt.Errorf` call site, carrying the formatted arguments:
`invalidZoom` for "zoom level must be >= 0", `invalidLon` for
"longitude must be in range [-180, 180]", `invalidX` / `invalidY` for the
two tile-range messages of `TileBounds`, and `wrapInvalidTileCoordinates`
for the imagery wrapper "invalid tile coordinates: %w". -/
inductive Err where
  | invalidZoom (z : ℤ)
  | invalidLon (lon : ℝ)
  | invalidX (n z x : ℤ)
  | invalidY (n z y : ℤ)
  | wrapInvalidTileCoordinates (inner : Err)

noncomputable section

/-- `MaxLatitude` constant from the source: the literal `85.05112878`. -/
def MaxLatitude : ℝ := 85.05112878

/-- `tileXToLon` from the source: `float64(x)/float64(n)*360.0 - 180.0`. -/
def tileXToLon (x n : ℤ) : ℝ := (x : ℝ) / (n : ℝ) * 360 - 180

/-- `tileYToLat` from the source:
`atan(sinh(π * (1 - 2*float64(y)/float64(n)))) * 180 / π`. -/
def tileYToLat (y n : ℤ) : ℝ :=
  Real.arctan (Real.sinh (Real.pi * (1 - 2 * (y : ℝ) / (n : ℝ)))) * 180 / Real.pi

/-- `TileBounds` from the source: validates `z`, then `x`, then `y`
against `n = 1 << uint(z)`, and returns the corner-based bounds.  The
`x+1` / `y+1` corner indices are reduced by `wrap64` like every Go `int`
addition (a no-op on every reachable value). -/
def TileBounds (z x y : ℤ) : Except Err Bounds :=
  if z < 0 then .error (.invalidZoom z)
  else
    let n := shl1 z.toNat
    if x < 0 ∨ n ≤ x then .error (.invalidX n z x)
    else if y < 0 ∨ n ≤ y then .error (.invalidY n z y)
    else .ok ⟨tileXToLon x n, tileYToLat (wrap64 (y + 1)) n,
              tileXToLon (wrap64 (x + 1)) n, tileYToLat y n⟩

/-- The latitude-clamping prologue of `LonLatToTile`: `if lat > MaxLatitude
{ lat = MaxLatitude }` followed by `if lat < -MaxLatitude { lat = -MaxLatitude }`. -/
def clampLat (lat : ℝ) : ℝ :=
  let lat1 := if MaxLatitude < lat then MaxLatitude else lat
  if lat1 < -MaxLatitude then -MaxLatitude else lat1

/-- The forward Web-Mercator normalisation of `LonLatToTile`:
`latRad := lat * π / 180`; `y := log(tan(latRad) + 1/cos(latRad))`;
`y = (1 - y/π) / 2`. -/
def mercY (lat : ℝ) : ℝ :=
  (1 - Real.log (Real.tan (lat * Real.pi / 180) +
      1 / Real.cos (lat * Real.pi / 180)) / Real.pi) / 2

/-- The tile-index clamping epilogue of `LonLatToTile`: `if t >= n
{ t = n - 1 }` followed by `if t < 0 { t = 0 }`; the Go subtraction `n - 1`
wraps (it matters exactly when `n = -2^63`, i.e. `z = 63`). -/
def clampTile (t n : ℤ) : ℤ :=
  let t1 := if n ≤ t then wrap64 (n - 1) else t
  if t1 < 0 then 0 else t1

/-- `LonLatToTile` from the source: validates `z` and `lon`, clamps `lat`,
computes `xtile = int(floor(nf * (lon+180)/360))` and
`ytile = int(floor(nf * mercY))` with `nf = float64(n)` (exact here: every
reachable `n` is `0`, `-2^63` or a power of two), then clamps both indices. -/
def LonLatToTile (lon lat : ℝ) (z : ℤ) : Except Err TileCoord :=
  if z < 0 then .error (.invalidZoom z)
  else if lon < -180 ∨ 180 < lon then .error (.invalidLon lon)
  else
    let n := shl1 z.toNat
    let xtile := ⌊(n : ℝ) * ((lon + 180) / 360)⌋
    let ytile := ⌊(n : ℝ) * mercY (clampLat lat)⌋
    .ok ⟨z, clampTile xtile n, clampTile ytile n⟩

/-- The Web-Mercator latitude limit `atan(sinh(π)) * 180 / π`
(≈ 85.0511287798°): the exact value of the top tile edge `tileYToLat 0 n`
at every zoom; the source constant `MaxLatitude = 85.05112878` is this
number rounded to 8 decimal places. -/
def webMercatorLimit : ℝ := Real.arctan (Real.sinh Real.pi) * 180 / Real.pi

/-- A loaded equirectangular source raster; from `imagery.BaseMap`.  The
decoded pixel grid is abstracted to a total colour lookup. -/
structure BaseMap where
  img : ℤ → ℤ → ℤ
  width : ℤ
  height : ℤ

/-- An integer pixel rectangle; from Go `image.Rectangle` flattened to its
four coordinates. -/
structure Rectangle where
  minX : ℤ
  minY : ℤ
  maxX : ℤ
  maxY : ℤ

/-- Go stdlib `image.Rect(x0, y0, x1, y1)`: builds the rectangle after
swapping each coordinate pair if given in reverse order, so the result is
always well-formed. -/
def imageRect (x0 y0 x1 y1 : ℤ) : Rectangle :=
  ⟨if x1 < x0 then x1 else x0, if y1 < y0 then y1 else y0,
   if x1 < x0 then x0 else x1, if y1 < y0 then y0 else y1⟩

/-- `TileSize` constant from the source: output tiles are 512×512. -/
def TileSize : ℤ := 512

/-- Go conversion `int(f)` of a `float64`: truncation toward zero. -/
def goTrunc (r : ℝ) : ℤ := if r < 0 then ⌈r⌉ else ⌊r⌋

/-- `lonToPixelX` from the source: `int((lon + 180.0) / 360.0 * float64(imageWidth))`. -/
def lonToPixelX (lon : ℝ) (imageWidth : ℤ) : ℤ :=
  goTrunc ((lon + 180) / 360 * (imageWidth : ℝ))

/-- `latToPixelY` from the source: `int((90.0 - lat) / 180.0 * float64(imageHeight))`. -/
def latToPixelY (lat : ℝ) (imageHeight : ℤ) : ℤ :=
  goTrunc ((90 - lat) / 180 * (imageHeight : ℝ))

/-- `clamp` from the source: restrict `value` to `[lo, hi]`, checking the
lower bound first. -/
def clamp (value lo hi : ℤ) : ℤ :=
  if value < lo then lo else if hi < value then hi else value

/-- `geoBoundsToPixelBounds` from the source: convert the four edges with
the linear equirectangular maps, clamp each into the image range, and
assemble via `image.Rect`. -/
def geoBoundsToPixelBounds (bm : BaseMap) (geo : Bounds) : Rectangle :=
  imageRect (clamp (lonToPixelX geo.West bm.width) 0 bm.width)
            (clamp (latToPixelY geo.North bm.height) 0 bm.height)
            (clamp (lonToPixelX geo.East bm.width) 0 bm.width)
            (clamp (latToPixelY geo.South bm.height) 0 bm.height)

/-- A sub-image view of the source raster; from `imagery.extractRegion`
(`SubImage` when supported, else a copy — both bit-identical, so one model
suffices): pixels inside the rectangle read the base map, pixels outside
are the zero colour. -/
structure SourceRegion where
  rect : Rectangle
  pix : ℤ → ℤ → ℤ

/-- `extractRegion` from the source, modelling the `SubImage` view. -/
def extractRegion (bm : BaseMap) (r : Rectangle) : SourceRegion :=
  ⟨r, fun i j =>
    if r.minX ≤ i ∧ i < r.maxX ∧ r.minY ≤ j ∧ j < r.maxY then bm.img i j else 0⟩

/-- A freshly allocated output pixel buffer; from Go `image.RGBA` restricted
to what the claims observe (its dimensions and pixels). -/
structure OutputTile where
  width : ℤ
  height : ℤ
  pix : ℤ → ℤ → ℤ

/-- Modelled from the spec: the Catmull-Rom resampler
(`xdraw.CatmullRom.Scale` of golang.org/x/image/draw, not part of this
repository) never fails once given a (possibly degenerate) region and
always fills exactly the fixed destination rectangle.  The interpolation
kernel itself is immaterial to the claims, so the sampling map is a simple
total source lookup; a degenerate (zero-width or zero-height) region yields
the zero colour through the view's out-of-range default. -/
def catmullRomScale (dstW dstH : ℤ) (src : SourceRegion) : OutputTile :=
  ⟨dstW, dstH, fun i j =>
    src.pix (src.rect.minX + i * (src.rect.maxX - src.rect.minX) / dstW)
            (src.rect.minY + j * (src.rect.maxY - src.rect.minY) / dstH)⟩

/-- `ExtractTile` from the source: tile bounds (error wrapped with the
"invalid tile coordinates" context), geographic→pixel conversion, region
extraction, and resampling into a fresh `TileSize × TileSize` buffer. -/
def ExtractTile (bm : BaseMap) (z x y : ℤ) : Except Err OutputTile :=
  match TileBounds z x y with
  | .error e => .error (.wrapInvalidTileCoordinates e)
  | .ok tb =>
    let pixelBounds := geoBoundsToPixelBounds bm tb
    let sourceRegion := extractRegion bm pixelBounds
    .ok (catmullRomScale TileSize TileSize sourceRegion)

/-- A small concrete raster used to instantiate witnesses. -/
def testMap : BaseMap := ⟨fun _ _ => 7, 4, 2⟩

end

/-! ### Arithmetic helper lemmas -/

theorem wrap64_eq_self {a : ℤ} (h1 : -(2 ^ 63) ≤ a) (h2 : a < 2 ^ 63) :
    wrap64 a = a := by
  unfold wrap64
  omega

theorem shl1_eq_pow {z : ℕ} (h : z ≤ 62) : shl1 z = 2 ^ z := by
  have h1 : (2 : ℤ) ^ z ≤ 2 ^ 62 := pow_le_pow_right₀ (by norm_num) h
  have h2 : (0 : ℤ) ≤ 2 ^ z := pow_nonneg (by norm_num) z
  unfold shl1
  rw [wrap64_eq_self] <;> omega

theorem shl1_63 : shl1 63 = -(2 ^ 63) := by norm_num [shl1, wrap64]

theorem shl1_64 : shl1 64 = 0 := by norm_num [shl1, wrap64]

/-! ### Analysis of the Web-Mercator latitude transform -/

theorem latRad_lt {lat : ℝ} (h : lat < 90) : lat * Real.pi / 180 < Real.pi / 2 := by
  have hπ := Real.pi_pos
  rw [div_lt_iff₀ (by norm_num : (0:ℝ) < 180)]
  nlinarith

theorem neg_lt_latRad {lat : ℝ} (h : -90 < lat) : -(Real.pi / 2) < lat * Real.pi / 180 := by
  have hπ := Real.pi_pos
  rw [lt_div_iff₀ (by norm_num : (0:ℝ) < 180)]
  nlinarith

theorem sqrt_one_add_tan_sq {r : ℝ} (hc : 0 < Real.cos r) :
    Real.sqrt (1 + Real.tan r ^ 2) = 1 / Real.cos r := by
  rw [one_div, ← Real.inv_sqrt_one_add_tan_sq hc, inv_inv]

theorem tan_add_inv_cos_pos {r : ℝ} (hc : 0 < Real.cos r) :
    0 < Real.tan r + 1 / Real.cos r := by
  have habs : |Real.tan r| < Real.sqrt (1 + Real.tan r ^ 2) := by
    rw [← Real.sqrt_sq_eq_abs]
    exact Real.sqrt_lt_sqrt (sq_nonneg _) (by linarith)
  rw [sqrt_one_add_tan_sq hc] at habs
  have := neg_abs_le (Real.tan r)
  linarith

/-- The quantity the source computes as `log(tan(latRad) + 1/cos(latRad))` is
the inverse hyperbolic sine of `tan(latRad)`: applying `sinh` recovers the
tangent. -/
theorem sinh_merclog {r : ℝ} (h1 : -(Real.pi / 2) < r) (h2 : r < Real.pi / 2) :
    Real.sinh (Real.log (Real.tan r + 1 / Real.cos r)) = Real.tan r := by
  have hc : 0 < Real.cos r := Real.cos_pos_of_mem_Ioo ⟨h1, h2⟩
  have hu : 0 < Real.tan r + 1 / Real.cos r := tan_add_inv_cos_pos hc
  rw [Real.sinh_log hu]
  have hinv : (Real.tan r + 1 / Real.cos r)⁻¹ = 1 / Real.cos r - Real.tan r := by
    apply inv_eq_of_mul_eq_one_right
    rw [Real.tan_eq_sin_div_cos]
    field_simp
    nlinarith [Real.sin_sq_add_cos_sq r]
  rw [hinv]
  ring

/-- The same quantity written with Mathlib's `arsinh` (the spec's `asinh`). -/
theorem merclog_eq_arsinh {r : ℝ} (h1 : -(Real.pi / 2) < r) (h2 : r < Real.pi / 2) :
    Real.log (Real.tan r + 1 / Real.cos r) = Real.arsinh (Real.tan r) := by
  have hc : 0 < Real.cos r := Real.cos_pos_of_mem_Ioo ⟨h1, h2⟩
  rw [Real.arsinh, sqrt_one_add_tan_sq hc]

theorem tan_latRad_le_sinh_pi {lat : ℝ} (h90a : -90 < lat)
    (hL : lat ≤ webMercatorLimit) :
    Real.tan (lat * Real.pi / 180) ≤ Real.sinh Real.pi := by
  have hr : lat * Real.pi / 180 ≤ Real.arctan (Real.sinh Real.pi) := by
    have := mul_le_mul_of_nonneg_right hL Real.pi_pos.le
    rw [webMercatorLimit, div_mul_cancel₀ _ Real.pi_ne_zero] at this
    rw [div_le_iff₀ (by norm_num : (0:ℝ) < 180)]
    linarith
  rcases eq_or_lt_of_le hr with he | hlt
  · rw [he, Real.tan_arctan]
  · refine le_of_lt ?_
    have := Real.tan_lt_tan_of_lt_of_lt_pi_div_two (neg_lt_latRad h90a)
      (Real.arctan_lt_pi_div_two _) hlt
    rwa [Real.tan_arctan] at this

theorem neg_sinh_pi_le_tan_latRad {lat : ℝ} (h90b : lat < 90)
    (hL : -webMercatorLimit ≤ lat) :
    -Real.sinh Real.pi ≤ Real.tan (lat * Real.pi / 180) := by
  have h1 : (-lat) * Real.pi / 180 ≤ Real.arctan (Real.sinh Real.pi) := by
    have hneg : -lat ≤ webMercatorLimit := by linarith
    have := mul_le_mul_of_nonneg_right hneg Real.pi_pos.le
    rw [webMercatorLimit, div_mul_cancel₀ _ Real.pi_ne_zero] at this
    rw [div_le_iff₀ (by norm_num : (0:ℝ) < 180)]
    linarith
  have h2 : Real.tan ((-lat) * Real.pi / 180) ≤ Real.sinh Real.pi :=
    tan_latRad_le_sinh_pi (by linarith) (by
      have := h1
      rw [webMercatorLimit]
      rw [le_div_iff₀ Real.pi_pos]
      rw [div_le_iff₀ (by norm_num : (0:ℝ) < 180)] at this
      linarith)
  rw [show (-lat) * Real.pi / 180 = -(lat * Real.pi / 180) by ring, Real.tan_neg] at h2
  linarith

/-- Within the Web-Mercator latitude range the normalised forward
projection lands in `[0, 1]`. -/
theorem mercY_mem_unit {lat : ℝ} (h90a : -90 < lat) (h90b : lat < 90)
    (hL1 : -webMercatorLimit ≤ lat) (hL2 : lat ≤ webMercatorLimit) :
    0 ≤ mercY lat ∧ mercY lat ≤ 1 := by
  have hπ := Real.pi_pos
  have hs := sinh_merclog (neg_lt_latRad h90a) (latRad_lt h90b)
  have hup : Real.log (Real.tan (lat * Real.pi / 180) +
      1 / Real.cos (lat * Real.pi / 180)) ≤ Real.pi := by
    rw [← Real.sinh_le_sinh, hs]
    exact tan_latRad_le_sinh_pi h90a hL2
  have hlo : -Real.pi ≤ Real.log (Real.tan (lat * Real.pi / 180) +
      1 / Real.cos (lat * Real.pi / 180)) := by
    rw [← Real.sinh_le_sinh, hs, Real.sinh_neg]
    exact neg_sinh_pi_le_tan_latRad h90b hL1
  unfold mercY
  constructor
  · have : Real.log (Real.tan (lat * Real.pi / 180) +
        1 / Real.cos (lat * Real.pi / 180)) / Real.pi ≤ 1 := by
      rw [div_le_one hπ]; exact hup
    linarith
  · have : -1 ≤ Real.log (Real.tan (lat * Real.pi / 180) +
        1 / Real.cos (lat * Real.pi / 180)) / Real.pi := by
      rw [le_div_iff₀ hπ]; linarith
    linarith

/-- Any integer at or below the exact forward-projected row fraction maps
back to a latitude at or above the input: the north-edge half of the
round-trip containment. -/
theorem lat_le_tileYToLat {lat : ℝ} {k n : ℤ} (hn : 0 < n)
    (h90a : -90 < lat) (h90b : lat < 90)
    (hk : (k : ℝ) ≤ (n : ℝ) * mercY lat) : lat ≤ tileYToLat k n := by
  have hπ := Real.pi_pos
  have hN : (0:ℝ) < (n : ℝ) := by exact_mod_cast hn
  have hs := sinh_merclog (neg_lt_latRad h90a) (latRad_lt h90b)
  set yv := Real.log (Real.tan (lat * Real.pi / 180) +
      1 / Real.cos (lat * Real.pi / 180)) with hyv
  have hY : mercY lat = (1 - yv / Real.pi) / 2 := rfl
  -- from hk : k ≤ n * (1 - yv/π)/2 derive yv ≤ π * (1 - 2*k/n)
  have hstep : yv ≤ Real.pi * (1 - 2 * (k : ℝ) / (n : ℝ)) := by
    rw [hY] at hk
    have h1 : (k : ℝ) / (n : ℝ) ≤ (1 - yv / Real.pi) / 2 := by
      rw [div_le_iff₀ hN]
      calc (k : ℝ) ≤ (n : ℝ) * ((1 - yv / Real.pi) / 2) := hk
        _ = (1 - yv / Real.pi) / 2 * (n : ℝ) := by ring
    have h2 : yv / Real.pi ≤ 1 - 2 * ((k : ℝ) / (n : ℝ)) := by linarith
    have h3 : yv / Real.pi * Real.pi ≤ (1 - 2 * ((k : ℝ) / (n : ℝ))) * Real.pi :=
      mul_le_mul_of_nonneg_right h2 hπ.le
    rw [div_mul_cancel₀ _ Real.pi_ne_zero] at h3
    calc yv ≤ (1 - 2 * ((k : ℝ) / (n : ℝ))) * Real.pi := h3
      _ = Real.pi * (1 - 2 * (k : ℝ) / (n : ℝ)) := by ring
  have harct : lat * Real.pi / 180 ≤
      Real.arctan (Real.sinh (Real.pi * (1 - 2 * (k : ℝ) / (n : ℝ)))) := by
    have hmono : Real.sinh yv ≤ Real.sinh (Real.pi * (1 - 2 * (k : ℝ) / (n : ℝ))) :=
      Real.sinh_le_sinh.2 hstep
    rw [hs] at hmono
    have := Real.arctan_strictMono.monotone hmono
    rwa [Real.arctan_tan (neg_lt_latRad h90a) (latRad_lt h90b)] at this
  unfold tileYToLat
  rw [le_div_iff₀ hπ]
  rw [div_le_iff₀ (by norm_num : (0:ℝ) < 180)] at harct
  linarith

/-- Any integer at or above the exact forward-projected row fraction maps
back to a latitude at or below the input: the south-edge half of the
round-trip containment. -/
theorem tileYToLat_le_lat {lat : ℝ} {k n : ℤ} (hn : 0 < n)
    (h90a : -90 < lat) (h90b : lat < 90)
    (hk : (n : ℝ) * mercY lat ≤ (k : ℝ)) : tileYToLat k n ≤ lat := by
  have hπ := Real.pi_pos
  have hN : (0:ℝ) < (n : ℝ) := by exact_mod_cast hn
  have hs := sinh_merclog (neg_lt_latRad h90a) (latRad_lt h90b)
  set yv := Real.log (Real.tan (lat * Real.pi / 180) +
      1 / Real.cos (lat * Real.pi / 180)) with hyv
  have hY : mercY lat = (1 - yv / Real.pi) / 2 := rfl
  have hstep : Real.pi * (1 - 2 * (k : ℝ) / (n : ℝ)) ≤ yv := by
    rw [hY] at hk
    have h1 : (1 - yv / Real.pi) / 2 ≤ (k : ℝ) / (n : ℝ) := by
      rw [le_div_iff₀ hN]
      calc (1 - yv / Real.pi) / 2 * (n : ℝ)
          = (n : ℝ) * ((1 - yv / Real.pi) / 2) := by ring
        _ ≤ (k : ℝ) := hk
    have h2 : 1 - 2 * ((k : ℝ) / (n : ℝ)) ≤ yv / Real.pi := by linarith
    have h3 : (1 - 2 * ((k : ℝ) / (n : ℝ))) * Real.pi ≤ yv / Real.pi * Real.pi :=
      mul_le_mul_of_nonneg_right h2 hπ.le
    rw [div_mul_cancel₀ _ Real.pi_ne_zero] at h3
    calc Real.pi * (1 - 2 * (k : ℝ) / (n : ℝ))
        = (1 - 2 * ((k : ℝ) / (n : ℝ))) * Real.pi := by ring
      _ ≤ yv := h3
  have harct : Real.arctan (Real.sinh (Real.pi * (1 - 2 * (k : ℝ) / (n : ℝ)))) ≤
      lat * Real.pi / 180 := by
    have hmono : Real.sinh (Real.pi * (1 - 2 * (k : ℝ) / (n : ℝ))) ≤ Real.sinh yv :=
      Real.sinh_le_sinh.2 hstep
    rw [hs] at hmono
    have := Real.arctan_strictMono.monotone hmono
    rwa [Real.arctan_tan (neg_lt_latRad h90a) (latRad_lt h90b)] at this
  unfold tileYToLat
  rw [div_le_iff₀ hπ]
  rw [le_div_iff₀ (by norm_num : (0:ℝ) < 180)] at harct
  linarith

/-- The top tile edge is exactly the Web-Mercator limit at every zoom. -/
theorem tileYToLat_zero (n : ℤ) : tileYToLat 0 n = webMercatorLimit := by
  unfold tileYToLat webMercatorLimit
  norm_num

/-- The bottom tile edge is exactly the negated Web-Mercator limit. -/
theorem tileYToLat_self {n : ℤ} (hn : (n : ℝ) ≠ 0) :
    tileYToLat n n = -webMercatorLimit := by
  unfold tileYToLat webMercatorLimit
  rw [show 1 - 2 * (n : ℝ) / (n : ℝ) = -1 by rw [mul_div_assoc, div_self hn]; ring]
  rw [show Real.pi * (-1) = -Real.pi by ring, Real.sinh_neg, Real.arctan_neg]
  ring

/-- Longitude round trip through the clamped column index: the selected
column is in range and its edge longitudes bracket the input. -/
theorem x_clamp_contain {lon : ℝ} {n : ℤ} (hn : 1 ≤ n) (hn62 : n ≤ 2 ^ 62)
    (h1 : -180 ≤ lon) (h2 : lon ≤ 180) :
    0 ≤ clampTile ⌊(n : ℝ) * ((lon + 180) / 360)⌋ n ∧
    clampTile ⌊(n : ℝ) * ((lon + 180) / 360)⌋ n < n ∧
    tileXToLon (clampTile ⌊(n : ℝ) * ((lon + 180) / 360)⌋ n) n ≤ lon ∧
    lon ≤ tileXToLon (clampTile ⌊(n : ℝ) * ((lon + 180) / 360)⌋ n + 1) n := by
  have hn62' : n ≤ 4611686018427387904 := by norm_num at hn62; exact hn62
  have hN : (0:ℝ) < (n : ℝ) := by exact_mod_cast hn
  set X : ℝ := (lon + 180) / 360 with hX
  have hX0 : 0 ≤ X := by rw [hX]; exact div_nonneg (by linarith) (by norm_num)
  have hX1 : X ≤ 1 := by rw [hX, div_le_one (by norm_num)]; linarith
  have hlonX : X * 360 - 180 = lon := by rw [hX]; field_simp
  set t0 : ℤ := ⌊(n : ℝ) * X⌋ with ht0
  have h0 : 0 ≤ t0 := Int.le_floor.2 (by exact_mod_cast mul_nonneg hN.le hX0)
  have hle : t0 ≤ n := by
    have hr : (n : ℝ) * X ≤ ((n : ℤ) : ℝ) := by nlinarith
    calc t0 ≤ ⌊((n : ℤ) : ℝ)⌋ := Int.floor_le_floor hr
      _ = n := Int.floor_intCast n
  by_cases hc : n ≤ t0
  · have hnX : ((n : ℤ) : ℝ) ≤ (n : ℝ) * X := Int.le_floor.1 hc
    have hXeq : X = 1 := by push_cast at hnX; nlinarith
    have hlon180 : lon = 180 := by rw [← hlonX, hXeq]; norm_num
    have hw : wrap64 (n - 1) = n - 1 := wrap64_eq_self (by omega) (by omega)
    have hclamp : clampTile t0 n = n - 1 := by
      unfold clampTile
      rw [if_pos hc, hw, if_neg (by omega)]
    rw [hclamp]
    refine ⟨by omega, by omega, ?_, ?_⟩
    · unfold tileXToLon
      rw [hlon180]
      have hd : ((n : ℝ) - 1) / (n : ℝ) ≤ 1 := by rw [div_le_one hN]; linarith
      push_cast
      nlinarith
    · unfold tileXToLon
      rw [hlon180]
      push_cast
      rw [show (n : ℝ) - 1 + 1 = (n : ℝ) by ring, div_self hN.ne']
      norm_num
  · have hclamp : clampTile t0 n = t0 := by
      unfold clampTile
      rw [if_neg hc, if_neg (by omega)]
    rw [hclamp]
    have hfl : (t0 : ℝ) ≤ (n : ℝ) * X := Int.floor_le _
    have hfu : (n : ℝ) * X < (t0 : ℝ) + 1 := Int.lt_floor_add_one _
    refine ⟨h0, by omega, ?_, ?_⟩
    · unfold tileXToLon
      have hq : (t0 : ℝ) / (n : ℝ) ≤ X := by
        rw [div_le_iff₀ hN]; nlinarith
      have h360 := mul_le_mul_of_nonneg_right hq (by norm_num : (0:ℝ) ≤ 360)
      linarith
    · unfold tileXToLon
      have hq : X ≤ ((t0 : ℝ) + 1) / (n : ℝ) := by
        rw [le_div_iff₀ hN]; nlinarith
      have h360 := mul_le_mul_of_nonneg_right hq (by norm_num : (0:ℝ) ≤ 360)
      push_cast
      linarith

/-- Latitude round trip through the clamped row index: the selected row is
in range and its edge latitudes bracket the input. -/
theorem y_clamp_contain {lat : ℝ} {n : ℤ} (hn : 1 ≤ n) (hn62 : n ≤ 2 ^ 62)
    (h90a : -90 < lat) (h90b : lat < 90)
    (hY0 : 0 ≤ mercY lat) (hY1 : mercY lat ≤ 1) :
    0 ≤ clampTile ⌊(n : ℝ) * mercY lat⌋ n ∧
    clampTile ⌊(n : ℝ) * mercY lat⌋ n < n ∧
    tileYToLat (clampTile ⌊(n : ℝ) * mercY lat⌋ n + 1) n ≤ lat ∧
    lat ≤ tileYToLat (clampTile ⌊(n : ℝ) * mercY lat⌋ n) n := by
  have hn62' : n ≤ 4611686018427387904 := by norm_num at hn62; exact hn62
  have hnpos : (0 : ℤ) < n := hn
  have hN : (0:ℝ) < (n : ℝ) := by exact_mod_cast hn
  set Y := mercY lat with hYdef
  set t0 : ℤ := ⌊(n : ℝ) * Y⌋ with ht0
  have h0 : 0 ≤ t0 := Int.le_floor.2 (by exact_mod_cast mul_nonneg hN.le hY0)
  have hle : t0 ≤ n := by
    have hr : (n : ℝ) * Y ≤ ((n : ℤ) : ℝ) := by nlinarith
    calc t0 ≤ ⌊((n : ℤ) : ℝ)⌋ := Int.floor_le_floor hr
      _ = n := Int.floor_intCast n
  by_cases hc : n ≤ t0
  · have hnY : ((n : ℤ) : ℝ) ≤ (n : ℝ) * Y := Int.le_floor.1 hc
    have hw : wrap64 (n - 1) = n - 1 := wrap64_eq_self (by omega) (by omega)
    have hclamp : clampTile t0 n = n - 1 := by
      unfold clampTile
      rw [if_pos hc, hw, if_neg (by omega)]
    rw [hclamp]
    refine ⟨by omega, by omega, ?_, ?_⟩
    · rw [show n - 1 + 1 = n by ring]
      exact tileYToLat_le_lat hnpos h90a h90b (by nlinarith)
    · exact lat_le_tileYToLat hnpos h90a h90b (by push_cast at hnY ⊢; linarith)
  · have hclamp : clampTile t0 n = t0 := by
      unfold clampTile
      rw [if_neg hc, if_neg (by omega)]
    rw [hclamp]
    refine ⟨h0, by omega, ?_, ?_⟩
    · refine tileYToLat_le_lat hnpos h90a h90b ?_
      push_cast
      exact (Int.lt_floor_add_one _).le
    · exact lat_le_tileYToLat hnpos h90a h90b (Int.floor_le _)

/-- Claim C1 (amended): for every zoom `0 ≤ z ≤ 62`, every longitude in
`[-180, 180]`, and every latitude within the Web-Mercator range — within
both the exact limit `atan(sinh π)·180/π ≈ 85.0511287798` and the code's
clamp constant `85.05112878` (the two differ by under `2·10⁻¹⁰`) —
`LonLatToTile` succeeds, `TileBounds` of the resulting tile succeeds, and
the resulting box contains the original point, boundary-inclusive.  The
original claim's unrestricted `z ≥ 0` fails at `z = 63`, where the Go
shift `1 << 63` overflows (see the counterexample). -/
theorem C1_roundtrip_amended (z : ℤ) (lon lat : ℝ) (hz0 : 0 ≤ z) (hz : z ≤ 62)
    (hlon1 : -180 ≤ lon) (hlon2 : lon ≤ 180)
    (hL1 : -webMercatorLimit ≤ lat) (hL2 : lat ≤ webMercatorLimit)
    (hM1 : -MaxLatitude ≤ lat) (hM2 : lat ≤ MaxLatitude) :
    ∃ t b, LonLatToTile lon lat z = .ok t ∧ TileBounds t.Z t.X t.Y = .ok b ∧
      b.West ≤ lon ∧ lon ≤ b.East ∧ b.South ≤ lat ∧ lat ≤ b.North := by
  set n : ℤ := 2 ^ z.toNat with hn
  have hztn : z.toNat ≤ 62 := by omega
  have hshl : shl1 z.toNat = n := shl1_eq_pow hztn
  have hnpos : (0 : ℤ) < n := pow_pos (by norm_num) _
  have hn1 : 1 ≤ n := hnpos
  have hn62 : n ≤ 2 ^ 62 := pow_le_pow_right₀ (by norm_num) hztn
  have hn62' : n ≤ 4611686018427387904 := by norm_num at hn62; exact hn62
  have h90a : -90 < lat := by
    have : (-90 : ℝ) < -MaxLatitude := by norm_num [MaxLatitude]
    linarith
  have h90b : lat < 90 := by
    have : MaxLatitude < 90 := by norm_num [MaxLatitude]
    linarith
  have hcl : clampLat lat = lat := by
    unfold clampLat
    rw [if_neg (not_lt.2 hM2), if_neg (not_lt.2 hM1)]
  have hY := mercY_mem_unit h90a h90b hL1 hL2
  obtain ⟨hx0, hx1, hxW, hxE⟩ := x_clamp_contain (n := n) hn1 hn62 hlon1 hlon2
  obtain ⟨hy0, hy1, hyS, hyN⟩ := y_clamp_contain (n := n) hn1 hn62 h90a h90b hY.1 hY.2
  set xt := clampTile ⌊(n : ℝ) * ((lon + 180) / 360)⌋ n with hxt
  set yt := clampTile ⌊(n : ℝ) * mercY lat⌋ n with hyt
  have hLL : LonLatToTile lon lat z = .ok ⟨z, xt, yt⟩ := by
    unfold LonLatToTile
    rw [if_neg (by omega), if_neg (by push_neg; exact ⟨by linarith, by linarith⟩)]
    rw [hshl, hcl]
  have hwx : wrap64 (xt + 1) = xt + 1 := wrap64_eq_self (by omega) (by omega)
  have hwy : wrap64 (yt + 1) = yt + 1 := wrap64_eq_self (by omega) (by omega)
  have hTB : TileBounds z xt yt = .ok ⟨tileXToLon xt n, tileYToLat (yt + 1) n,
      tileXToLon (xt + 1) n, tileYToLat yt n⟩ := by
    unfold TileBounds
    rw [if_neg (by omega)]
    rw [hshl]
    rw [if_neg (by push_neg; exact ⟨hx0, hx1⟩), if_neg (by push_neg; exact ⟨hy0, hy1⟩)]
    rw [hwx, hwy]
  exact ⟨⟨z, xt, yt⟩, _, hLL, hTB, hxW, hxE, hyS, hyN⟩

/-! ### More shared helper lemmas -/

theorem webMercatorLimit_pos : 0 < webMercatorLimit := by
  have h1 : 0 < Real.sinh Real.pi := by
    rw [← Real.sinh_zero]
    exact Real.sinh_lt_sinh.2 Real.pi_pos
  have h2 : 0 < Real.arctan (Real.sinh Real.pi) := by
    rw [← Real.arctan_zero]
    exact Real.arctan_strictMono h1
  unfold webMercatorLimit
  exact div_pos (mul_pos h2 (by norm_num)) Real.pi_pos

theorem clampLat_eq (lat : ℝ) :
    clampLat lat = max (-MaxLatitude) (min lat MaxLatitude) := by
  have hM : (0:ℝ) ≤ MaxLatitude := by norm_num [MaxLatitude]
  unfold clampLat
  by_cases h1 : MaxLatitude < lat
  · rw [if_pos h1, if_neg (not_lt.2 (by linarith)), min_eq_right h1.le,
      max_eq_right (by linarith)]
  · rw [if_neg h1]
    push_neg at h1
    rw [min_eq_left h1]
    by_cases h2 : lat < -MaxLatitude
    · rw [if_pos h2, max_eq_left h2.le]
    · push_neg at h2
      rw [if_neg (not_lt.2 h2), max_eq_right h2]

theorem clampTile_eq {t n : ℤ} (hn : 1 ≤ n) (hn62 : n ≤ 2 ^ 62) :
    clampTile t n = max 0 (min t (n - 1)) := by
  have hn62' : n ≤ 4611686018427387904 := by norm_num at hn62; exact hn62
  have hw : wrap64 (n - 1) = n - 1 := wrap64_eq_self (by omega) (by omega)
  unfold clampTile
  rw [hw]
  rcases le_or_lt n t with h | h
  · rw [if_pos h, if_neg (by omega), min_eq_right (by omega), max_eq_right (by omega)]
  · rw [if_neg (not_le.2 h)]
    rcases lt_or_le t 0 with h2 | h2
    · rw [if_pos h2, min_eq_left (by omega), max_eq_left (by omega)]
    · rw [if_neg (not_lt.2 h2), min_eq_left (by omega), max_eq_right h2]

theorem mercY_eq_arsinh {lat : ℝ} (h90a : -90 < lat) (h90b : lat < 90) :
    mercY lat = (1 - Real.arsinh (Real.tan (lat * Real.pi / 180)) / Real.pi) / 2 := by
  unfold mercY
  rw [merclog_eq_arsinh (neg_lt_latRad h90a) (latRad_lt h90b)]

theorem goTrunc_eq_floor {r : ℝ} (h : 0 ≤ r) : goTrunc r = ⌊r⌋ := by
  unfold goTrunc
  rw [if_neg (not_lt.2 h)]

theorem clamp_mem {v lo hi : ℤ} (h : lo ≤ hi) :
    lo ≤ clamp v lo hi ∧ clamp v lo hi ≤ hi := by
  unfold clamp
  split_ifs <;> omega

theorem clamp_mono {a b lo hi : ℤ} (hlo : lo ≤ hi) (h : a ≤ b) :
    clamp a lo hi ≤ clamp b lo hi := by
  unfold clamp
  split_ifs <;> omega

theorem imageRect_eq (a b c d : ℤ) :
    imageRect a b c d = ⟨min a c, min b d, max a c, max b d⟩ := by
  unfold imageRect
  have h1 : (if c < a then c else a) = min a c := by split_ifs <;> omega
  have h2 : (if d < b then d else b) = min b d := by split_ifs <;> omega
  have h3 : (if c < a then a else c) = max a c := by split_ifs <;> omega
  have h4 : (if d < b then b else d) = max b d := by split_ifs <;> omega
  rw [h1, h2, h3, h4]

/-- `TileBounds` on a zoom below the overflow threshold, with the shift and
the corner additions unwrapped. -/
theorem tileBounds_eq_of_le {z x y n : ℤ} (hz0 : 0 ≤ z) (hz : z ≤ 62)
    (hn : n = 2 ^ z.toNat) :
    TileBounds z x y = if x < 0 ∨ n ≤ x then .error (.invalidX n z x)
      else if y < 0 ∨ n ≤ y then .error (.invalidY n z y)
      else .ok ⟨tileXToLon x n, tileYToLat (y + 1) n,
                tileXToLon (x + 1) n, tileYToLat y n⟩ := by
  have hshl : shl1 z.toNat = n := by rw [hn]; exact shl1_eq_pow (by omega)
  have hn62 : n ≤ 2 ^ 62 := by
    rw [hn]; exact pow_le_pow_right₀ (by norm_num) (by omega)
  have hn62' : n ≤ 4611686018427387904 := by norm_num at hn62; exact hn62
  have hnpos : 0 < n := by rw [hn]; positivity
  have hn1 : 1 ≤ n := by omega
  have hA : TileBounds z x y = if x < 0 ∨ n ≤ x then .error (.invalidX n z x)
      else if y < 0 ∨ n ≤ y then .error (.invalidY n z y)
      else .ok ⟨tileXToLon x n, tileYToLat (wrap64 (y + 1)) n,
                tileXToLon (wrap64 (x + 1)) n, tileYToLat y n⟩ := by
    unfold TileBounds
    rw [if_neg (by omega), hshl]
  rw [hA]
  split_ifs with h2 h3
  · rfl
  · rfl
  · push_neg at h2 h3
    rw [wrap64_eq_self (by omega) (by omega), wrap64_eq_self (by omega) (by omega)]

/-- The midpoint row edge at zoom 1 is the equator. -/
theorem tileYToLat_mid : tileYToLat 1 2 = 0 := by
  unfold tileYToLat
  norm_num [Real.sinh_zero, Real.arctan_zero]

theorem shl1_eq_zero {m : ℕ} (h : 64 ≤ m) : shl1 m = 0 := by
  obtain ⟨k, rfl⟩ : ∃ k, m = 64 + k := ⟨m - 64, by omega⟩
  unfold shl1 wrap64
  rw [pow_add, add_comm ((2:ℤ) ^ 64 * 2 ^ k) (2 ^ 63), mul_comm ((2:ℤ) ^ 64) (2 ^ k),
    Int.add_mul_emod_self]
  norm_num

theorem shl1_nonpos {m : ℕ} (h : 63 ≤ m) : shl1 m ≤ 0 := by
  rcases eq_or_lt_of_le h with he | hlt
  · rw [← he, shl1_63]
    norm_num
  · rw [shl1_eq_zero (by omega)]

/-- `TileBounds` at a non-negative zoom, with only the zoom guard removed. -/
theorem tileBounds_eq_of_nonneg {z x y : ℤ} (hz : 0 ≤ z) :
    TileBounds z x y =
      if x < 0 ∨ shl1 z.toNat ≤ x then .error (.invalidX (shl1 z.toNat) z x)
      else if y < 0 ∨ shl1 z.toNat ≤ y then .error (.invalidY (shl1 z.toNat) z y)
      else .ok ⟨tileXToLon x (shl1 z.toNat), tileYToLat (wrap64 (y + 1)) (shl1 z.toNat),
                tileXToLon (wrap64 (x + 1)) (shl1 z.toNat), tileYToLat y (shl1 z.toNat)⟩ := by
  unfold TileBounds
  rw [if_neg (not_lt.2 hz)]

/-- `TileBounds` at a negative zoom. -/
theorem tileBounds_eq_of_neg {z x y : ℤ} (hz : z < 0) :
    TileBounds z x y = .error (.invalidZoom z) := by
  unfold TileBounds
  rw [if_pos hz]

/-- `LonLatToTile` at a non-negative zoom, with only the zoom guard removed. -/
theorem lonLatToTile_eq_of_nonneg {z : ℤ} (lon lat : ℝ) (hz : 0 ≤ z) :
    LonLatToTile lon lat z =
      if lon < -180 ∨ 180 < lon then .error (.invalidLon lon)
      else .ok ⟨z, clampTile ⌊(shl1 z.toNat : ℝ) * ((lon + 180) / 360)⌋ (shl1 z.toNat),
                clampTile ⌊(shl1 z.toNat : ℝ) * mercY (clampLat lat)⌋ (shl1 z.toNat)⟩ := by
  unfold LonLatToTile
  rw [if_neg (not_lt.2 hz)]

/-! ### Claim theorems -/

/-- Claim C1, counterexample: at `z = 63`, `lon = 0`, `lat = 0` (a valid
input per the claim, since `0 < 2^63`), `LonLatToTile` succeeds but returns
the overflow-clamped tile `(2^63 - 1, 2^63 - 1)`, and `TileBounds` on that
tile fails — so the round trip does not yield containing bounds. -/
theorem C1_roundtrip_counterexample :
    LonLatToTile 0 0 63 = .ok ⟨63, 2 ^ 63 - 1, 2 ^ 63 - 1⟩ ∧
    TileBounds 63 (2 ^ 63 - 1) (2 ^ 63 - 1) =
      .error (.invalidX (-(2 ^ 63)) 63 (2 ^ 63 - 1)) := by
  constructor
  · have ht : (63 : ℤ).toNat = 63 := rfl
    have hcl : clampLat 0 = 0 := by norm_num [clampLat, MaxLatitude]
    have hmy : mercY 0 = 1 / 2 := by
      simp [mercY, Real.tan_zero, Real.cos_zero, Real.log_one]
    simp only [LonLatToTile, ht, shl1_63, hcl, hmy]
    norm_num [clampTile, wrap64]
  · have ht : (63 : ℤ).toNat = 63 := rfl
    simp only [TileBounds, ht, shl1_63]
    norm_num

/-- Claim C1, witness: the amended round-trip law applied at the origin at
zoom 0. -/
theorem C1_roundtrip_amended_witness :
    ∃ t b, LonLatToTile 0 0 0 = .ok t ∧ TileBounds t.Z t.X t.Y = .ok b ∧
      b.West ≤ 0 ∧ (0:ℝ) ≤ b.East ∧ b.South ≤ 0 ∧ (0:ℝ) ≤ b.North :=
  C1_roundtrip_amended 0 0 0 (by norm_num) (by norm_num) (by norm_num) (by norm_num)
    (by linarith [webMercatorLimit_pos]) (by linarith [webMercatorLimit_pos])
    (by norm_num [MaxLatitude]) (by norm_num [MaxLatitude])

/-- Claim C2 (amended: zoom at most 62): for `0 ≤ z ≤ 62`, `n = 2^z`, and
`x, y ∈ [0, n)`, `TileBounds` returns exactly `West = x/n·360 - 180`,
`East = (x+1)/n·360 - 180`, `North = atan(sinh(π·(1 - 2·y/n)))·180/π`, and
`South` the same latitude formula at `y+1` — with no special-casing at
row 0.  The original claim's unrestricted `z ≥ 0` fails at `z = 63` (shift
overflow; see counterexample). -/
theorem C2_tileBounds_formulas (z x y n : ℤ) (hz0 : 0 ≤ z) (hz : z ≤ 62)
    (hn : n = 2 ^ z.toNat) (hx0 : 0 ≤ x) (hx1 : x < n) (hy0 : 0 ≤ y) (hy1 : y < n) :
    TileBounds z x y = .ok ⟨(x : ℝ) / (n : ℝ) * 360 - 180,
      Real.arctan (Real.sinh (Real.pi * (1 - 2 * ((y : ℝ) + 1) / (n : ℝ)))) * 180 / Real.pi,
      ((x : ℝ) + 1) / (n : ℝ) * 360 - 180,
      Real.arctan (Real.sinh (Real.pi * (1 - 2 * (y : ℝ) / (n : ℝ)))) * 180 / Real.pi⟩ := by
  rw [tileBounds_eq_of_le hz0 hz hn, if_neg (by omega), if_neg (by omega)]
  unfold tileXToLon tileYToLat
  push_cast
  rfl

/-- Claim C2, counterexample: `(z, x, y) = (63, 0, 0)` is valid per the
claim (`0 < 2^63`), yet `TileBounds` rejects it with the invalid-column
error because `1 << 63` wraps to `-2^63`. -/
theorem C2_tileBounds_counterexample :
    TileBounds 63 0 0 = .error (.invalidX (-(2 ^ 63)) 63 0) ∧ (0 : ℤ) < 2 ^ 63 := by
  constructor
  · have ht : (63 : ℤ).toNat = 63 := rfl
    simp only [TileBounds, ht, shl1_63]
    norm_num
  · norm_num

/-- Claim C2, witness: the formulas evaluated at `(z, x, y) = (2, 1, 1)`. -/
theorem C2_tileBounds_formulas_witness :
    TileBounds 2 1 1 = .ok ⟨-90, 0, 0,
      Real.arctan (Real.sinh (Real.pi * (1 / 2))) * 180 / Real.pi⟩ := by
  have h := C2_tileBounds_formulas 2 1 1 4 (by norm_num) (by norm_num) (by decide)
    (by norm_num) (by norm_num) (by norm_num) (by norm_num)
  rw [h]
  norm_num [Real.sinh_zero, Real.arctan_zero]

/-- Claim C9: `TileBounds(0,0,0)` is exactly the full-world box
`{-180, -MaxLatitude, 180, MaxLatitude}`, `TileBounds(1,0,0)` the
northwest quadrant and `TileBounds(1,1,1)` the southeast quadrant, where
`MaxLatitude` is the Web-Mercator latitude limit `atan(sinh π)·180/π ≈
85.0511287798` (the source constant `85.05112878` is this value rounded to
8 decimals). -/
theorem C9_tileBounds_anchor_values :
    TileBounds 0 0 0 = .ok ⟨-180, -webMercatorLimit, 180, webMercatorLimit⟩ ∧
    TileBounds 1 0 0 = .ok ⟨-180, 0, 0, webMercatorLimit⟩ ∧
    TileBounds 1 1 1 = .ok ⟨0, -webMercatorLimit, 180, 0⟩ := by
  have h0 := tileBounds_eq_of_le (z := 0) (x := 0) (y := 0) (n := 1)
    (by norm_num) (by norm_num) (by decide)
  have h1 := tileBounds_eq_of_le (z := 1) (x := 0) (y := 0) (n := 2)
    (by norm_num) (by norm_num) (by decide)
  have h2 := tileBounds_eq_of_le (z := 1) (x := 1) (y := 1) (n := 2)
    (by norm_num) (by norm_num) (by decide)
  refine ⟨?_, ?_, ?_⟩
  · rw [h0, if_neg (by norm_num), if_neg (by norm_num)]
    rw [show (0 + 1 : ℤ) = 1 from rfl]
    rw [tileYToLat_zero, tileYToLat_self (n := 1) (by norm_num)]
    norm_num [tileXToLon]
  · rw [h1, if_neg (by norm_num), if_neg (by norm_num)]
    rw [show (0 + 1 : ℤ) = 1 from rfl]
    rw [tileYToLat_zero, tileYToLat_mid]
    norm_num [tileXToLon]
  · rw [h2, if_neg (by norm_num), if_neg (by norm_num)]
    rw [show (1 + 1 : ℤ) = 2 from rfl]
    rw [tileYToLat_mid, tileYToLat_self (n := 2) (by norm_num)]
    norm_num [tileXToLon]

/-- Claim C3 (amended: zoom at most 62): for `0 ≤ z ≤ 62`, `n = 2^z`,
`lon ∈ [-180, 180]` and any latitude, `LonLatToTile` clamps `lat` into
`[-MaxLatitude, MaxLatitude]`, computes `column = ⌊n·(lon+180)/360⌋` and
`row = ⌊n·(1 - asinh(tan(latRad))/π)/2⌋`, clamps both into `[0, n-1]`, and
`lon = 180` yields column `n - 1`.  The original claim's unrestricted
`z ≥ 0` fails at `z = 63` (shift overflow; see counterexample). -/
theorem C3_lonLatToTile_formulas (z : ℤ) (lon lat : ℝ) (n : ℤ)
    (hz0 : 0 ≤ z) (hz : z ≤ 62) (hn : n = 2 ^ z.toNat)
    (hlon1 : -180 ≤ lon) (hlon2 : lon ≤ 180) :
    LonLatToTile lon lat z = .ok ⟨z,
      max 0 (min ⌊(n : ℝ) * ((lon + 180) / 360)⌋ (n - 1)),
      max 0 (min ⌊(n : ℝ) * ((1 - Real.arsinh (Real.tan
        (max (-MaxLatitude) (min lat MaxLatitude) * Real.pi / 180)) / Real.pi) / 2)⌋
        (n - 1))⟩ ∧
    (lon = 180 → max 0 (min ⌊(n : ℝ) * ((lon + 180) / 360)⌋ (n - 1)) = n - 1) := by
  have hshl : shl1 z.toNat = n := by rw [hn]; exact shl1_eq_pow (by omega)
  have hnpos : 0 < n := by rw [hn]; positivity
  have hn1 : 1 ≤ n := by omega
  have hn62 : n ≤ 2 ^ 62 := by
    rw [hn]; exact pow_le_pow_right₀ (by norm_num) (by omega)
  have hM0 : (0:ℝ) ≤ MaxLatitude := by norm_num [MaxLatitude]
  set latC := max (-MaxLatitude) (min lat MaxLatitude) with hlatC
  have hCl : clampLat lat = latC := clampLat_eq lat
  have h90a : -90 < latC := by
    have h1 : -MaxLatitude ≤ latC := le_max_left _ _
    have h2 : (-90 : ℝ) < -MaxLatitude := by norm_num [MaxLatitude]
    linarith
  have h90b : latC < 90 := by
    have h1 : latC ≤ MaxLatitude := max_le (by linarith) (min_le_right _ _)
    have h2 : MaxLatitude < (90 : ℝ) := by norm_num [MaxLatitude]
    linarith
  have hmerc : mercY latC =
      (1 - Real.arsinh (Real.tan (latC * Real.pi / 180)) / Real.pi) / 2 :=
    mercY_eq_arsinh h90a h90b
  constructor
  · have hred : LonLatToTile lon lat z = .ok ⟨z,
        clampTile ⌊(n : ℝ) * ((lon + 180) / 360)⌋ n,
        clampTile ⌊(n : ℝ) * mercY latC⌋ n⟩ := by
      rw [lonLatToTile_eq_of_nonneg lon lat hz0,
        if_neg (by push_neg; exact ⟨by linarith, by linarith⟩), hshl, hCl]
    rw [hred, clampTile_eq hn1 hn62, clampTile_eq hn1 hn62, hmerc]
  · intro h180
    subst h180
    rw [show (n : ℝ) * ((180 + 180) / 360) = ((n : ℤ) : ℝ) by ring,
      Int.floor_intCast, min_eq_right (by omega), max_eq_right (by omega)]

/-- Claim C3, counterexample: at `z = 63`, `lon = -180`, `lat = 0` the claim
predicts column `⌊2^63 · 0⌋ = 0` clamped to `0`, but the code returns
column `2^63 - 1` because the wrapped `n = -2^63` makes the upper clamp
fire and `n - 1` wraps to `2^63 - 1`. -/
theorem C3_lonLatToTile_counterexample :
    LonLatToTile (-180) 0 63 = .ok ⟨63, 2 ^ 63 - 1, 2 ^ 63 - 1⟩ ∧
    max 0 (min ⌊((2:ℝ) ^ 63) * ((-180 + 180) / 360)⌋ (2 ^ 63 - 1)) = 0 ∧
    ((2:ℤ) ^ 63 - 1) ≠ 0 := by
  refine ⟨?_, ?_, by norm_num⟩
  · have ht : (63 : ℤ).toNat = 63 := rfl
    have hcl : clampLat 0 = 0 := by norm_num [clampLat, MaxLatitude]
    have hmy : mercY 0 = 1 / 2 := by
      simp [mercY, Real.tan_zero, Real.cos_zero, Real.log_one]
    simp only [LonLatToTile, ht, shl1_63, hcl, hmy]
    norm_num [clampTile, wrap64]
  · norm_num

/-- Claim C3, witness: the formulas applied at `lon = 0`, `lat = 0`,
`z = 1` give the tile `(1, 1, 1)` from the spec's own example. -/
theorem C3_lonLatToTile_formulas_witness :
    LonLatToTile 0 0 1 = .ok ⟨1, 1, 1⟩ := by
  have h := (C3_lonLatToTile_formulas 1 0 0 2 (by norm_num) (by norm_num)
    (by decide) (by norm_num) (by norm_num)).1
  rw [h]
  norm_num [MaxLatitude, Real.tan_zero, Real.arsinh_zero]

/-- Claim C4 (amended: the exact zoom/column/row error taxonomy holds for
`0 ≤ z ≤ 62`; for `z ≥ 63` the wrapped tile count `n ≤ 0` makes every
column — valid or not — fail with the invalid-column error):
`TileBounds` fails with the invalid-zoom error iff `z < 0`; for
`0 ≤ z ≤ 62` it fails with the invalid-column error iff `x ∉ [0, 2^z)`,
fails with the invalid-row error iff `x` is in range and `y ∉ [0, 2^z)`,
and succeeds on in-range inputs; the two axis errors are distinct
constructors, so the caller can tell which axis failed. -/
theorem C4_tileBounds_error_taxonomy (z x y n : ℤ) (hn : n = 2 ^ z.toNat) :
    (TileBounds z x y = .error (.invalidZoom z) ↔ z < 0) ∧
    (0 ≤ z → z ≤ 62 →
      (TileBounds z x y = .error (.invalidX n z x) ↔ ¬(0 ≤ x ∧ x < n))) ∧
    (0 ≤ z → z ≤ 62 →
      (TileBounds z x y = .error (.invalidY n z y) ↔
        (0 ≤ x ∧ x < n ∧ ¬(0 ≤ y ∧ y < n)))) ∧
    (0 ≤ z → z ≤ 62 → 0 ≤ x → x < n → 0 ≤ y → y < n →
      ∃ b, TileBounds z x y = .ok b) ∧
    (63 ≤ z → TileBounds z x y = .error (.invalidX (shl1 z.toNat) z x)) := by
  refine ⟨?_, ?_, ?_, ?_, ?_⟩
  · constructor
    · intro h
      by_contra hz
      push_neg at hz
      rw [tileBounds_eq_of_nonneg hz] at h
      split_ifs at h <;> simp at h
    · intro hz
      exact tileBounds_eq_of_neg hz
  · intro hz0 hz62
    rw [tileBounds_eq_of_le hz0 hz62 hn]
    constructor
    · intro h
      split_ifs at h with h2 h3 <;> first | omega | simp at h
    · intro h
      rw [if_pos (by omega)]
  · intro hz0 hz62
    rw [tileBounds_eq_of_le hz0 hz62 hn]
    constructor
    · intro h
      split_ifs at h with h2 h3 <;> first | omega | simp at h
    · rintro ⟨hx0, hx1, hy⟩
      rw [if_neg (by omega), if_pos (by omega)]
  · intro hz0 hz62 hx0 hx1 hy0 hy1
    rw [tileBounds_eq_of_le hz0 hz62 hn, if_neg (by omega), if_neg (by omega)]
    exact ⟨_, rfl⟩
  · intro h63
    rw [tileBounds_eq_of_nonneg (by omega)]
    have hnp : shl1 z.toNat ≤ 0 := shl1_nonpos (by omega)
    rw [if_pos (by omega)]

/-- Claim C4, counterexample: `(z, x, y) = (64, 0, 0)` has `x = 0` inside
the claim's valid range `[0, 2^64)`, yet `TileBounds` fails with the
invalid-column error (the over-wide Go shift yields `n = 0`). -/
theorem C4_error_taxonomy_counterexample :
    TileBounds 64 0 0 = .error (.invalidX 0 64 0) ∧ (0 : ℤ) < 2 ^ 64 := by
  constructor
  · have ht : (64 : ℤ).toNat = 64 := rfl
    simp only [TileBounds, ht, shl1_64]
    norm_num
  · norm_num

/-- Claim C4, witness: the taxonomy instantiated at `z = -1` (invalid
zoom), `(0,0,0)` (success) and `(0,1,0)` (invalid column). -/
theorem C4_error_taxonomy_witness :
    TileBounds (-1) 0 0 = .error (.invalidZoom (-1)) ∧
    (∃ b, TileBounds 0 0 0 = .ok b) ∧
    TileBounds 0 1 0 = .error (.invalidX 1 0 1) := by
  refine ⟨?_, ?_, ?_⟩
  · exact (C4_tileBounds_error_taxonomy (-1) 0 0 1 (by decide)).1.mpr (by norm_num)
  · exact (C4_tileBounds_error_taxonomy 0 0 0 1 (by decide)).2.2.2.1
      (by norm_num) (by norm_num) (by norm_num) (by norm_num) (by norm_num) (by norm_num)
  · exact ((C4_tileBounds_error_taxonomy 0 1 0 1 (by decide)).2.1
      (by norm_num) (by norm_num)).mpr (by omega)

/-- Claim C5: for every `z ≥ 0`, `LonLatToTile` fails exactly when the
longitude is outside `[-180, 180]` (and then with the invalid-longitude
error); latitude never causes failure — it is silently clamped, so the
poles `±90` and the out-of-range `±100` produce identical results to each
other for any fixed `lon` and `z`. -/
theorem C5_longitude_only_errors (z : ℤ) (lon lat : ℝ) (hz : 0 ≤ z) :
    ((∃ e, LonLatToTile lon lat z = .error e) ↔ (lon < -180 ∨ 180 < lon)) ∧
    ((lon < -180 ∨ 180 < lon) → LonLatToTile lon lat z = .error (.invalidLon lon)) ∧
    LonLatToTile lon 90 z = LonLatToTile lon 100 z ∧
    LonLatToTile lon (-90) z = LonLatToTile lon (-100) z := by
  refine ⟨?_, ?_, ?_, ?_⟩
  · constructor
    · rintro ⟨e, he⟩
      rw [lonLatToTile_eq_of_nonneg lon lat hz] at he
      by_cases hc : lon < -180 ∨ 180 < lon
      · exact hc
      · rw [if_neg hc] at he
        simp at he
    · intro hc
      exact ⟨_, by rw [lonLatToTile_eq_of_nonneg lon lat hz, if_pos hc]⟩
  · intro hc
    rw [lonLatToTile_eq_of_nonneg lon lat hz, if_pos hc]
  · have hc1 : clampLat 90 = MaxLatitude := by norm_num [clampLat, MaxLatitude]
    have hc2 : clampLat 100 = MaxLatitude := by norm_num [clampLat, MaxLatitude]
    rw [lonLatToTile_eq_of_nonneg lon 90 hz, lonLatToTile_eq_of_nonneg lon 100 hz,
      hc1, hc2]
  · have hc1 : clampLat (-90) = -MaxLatitude := by norm_num [clampLat, MaxLatitude]
    have hc2 : clampLat (-100) = -MaxLatitude := by norm_num [clampLat, MaxLatitude]
    rw [lonLatToTile_eq_of_nonneg lon (-90) hz, lonLatToTile_eq_of_nonneg lon (-100) hz,
      hc1, hc2]

/-- Claim C5, witness: `LonLatToTile(181, 0, 5)` fails with the
invalid-longitude error, and `LonLatToTile(0, 90, 5) = LonLatToTile(0, 100, 5)`. -/
theorem C5_longitude_only_errors_witness :
    LonLatToTile 181 0 5 = .error (.invalidLon 181) ∧
    LonLatToTile 0 90 5 = LonLatToTile 0 100 5 :=
  ⟨(C5_longitude_only_errors 5 181 0 (by norm_num)).2.1 (by norm_num),
   (C5_longitude_only_errors 5 0 0 (by norm_num)).2.2.1⟩

/-- Claim C6 (amended: zoom at most 62): for every source raster and every
tile index with `0 ≤ z ≤ 62`, `x, y ∈ [0, 2^z)`, `ExtractTile` never fails
and returns a buffer of exactly `512 × 512` — including zoom 0 and
degenerate clamped regions (the resampler is total).  The original claim's
unrestricted `z ≥ 0` fails at `z = 63` (shift overflow in the `TileBounds`
validation; see counterexample). -/
theorem C6_extractTile_fixed_size (bm : BaseMap) (z x y n : ℤ)
    (hz0 : 0 ≤ z) (hz : z ≤ 62) (hn : n = 2 ^ z.toNat)
    (hx0 : 0 ≤ x) (hx1 : x < n) (hy0 : 0 ≤ y) (hy1 : y < n) :
    ∃ t, ExtractTile bm z x y = .ok t ∧ t.width = 512 ∧ t.height = 512 := by
  have hb : TileBounds z x y = .ok ⟨tileXToLon x n, tileYToLat (y + 1) n,
      tileXToLon (x + 1) n, tileYToLat y n⟩ := by
    rw [tileBounds_eq_of_le hz0 hz hn, if_neg (by omega), if_neg (by omega)]
  unfold ExtractTile
  rw [hb]
  exact ⟨_, rfl, rfl, rfl⟩

/-- Claim C6, counterexample: `(z, x, y) = (63, 1, 1)` is a valid tile
index per the claim (`1 < 2^63`), yet `ExtractTile` fails because the
overflowed `TileBounds` validation rejects the column. -/
theorem C6_extractTile_counterexample :
    ExtractTile testMap 63 1 1 =
      .error (.wrapInvalidTileCoordinates (.invalidX (-(2 ^ 63)) 63 1)) ∧
    (1 : ℤ) < 2 ^ 63 := by
  constructor
  · have hTB : TileBounds 63 1 1 = .error (.invalidX (-(2 ^ 63)) 63 1) := by
      have ht : (63 : ℤ).toNat = 63 := rfl
      simp only [TileBounds, ht, shl1_63]
      norm_num
    unfold ExtractTile
    rw [hTB]
  · norm_num

/-- Claim C6, witness: the whole-world tile at zoom 0 on the test raster. -/
theorem C6_extractTile_fixed_size_witness :
    ∃ t, ExtractTile testMap 0 0 0 = .ok t ∧ t.width = 512 ∧ t.height = 512 :=
  C6_extractTile_fixed_size testMap 0 0 0 1 (by norm_num) (by norm_num) (by decide)
    (by norm_num) (by norm_num) (by norm_num) (by norm_num)

/-- Claim C7: on inputs shaped like `TileBounds` output (edges inside
`[-180, 180]` and below the pole, west ≤ east, south ≤ north), the
geographic→pixel conversion is `Left = ⌊(West+180)/360·width⌋`,
`Right = ⌊(East+180)/360·width⌋`, `Top = ⌊(90-North)/180·height⌋`,
`Bottom = ⌊(90-South)/180·height⌋`, each clamped independently into
`[0, width]` / `[0, height]`. -/
theorem C7_geoBounds_formula (bm : BaseMap) (geo : Bounds)
    (hW : -180 ≤ geo.West) (hWE : geo.West ≤ geo.East) (_hE : geo.East ≤ 180)
    (hSN : geo.South ≤ geo.North) (hN : geo.North ≤ 90) (_hS : geo.South ≤ 90)
    (hw : 0 ≤ bm.width) (hh : 0 ≤ bm.height) :
    geoBoundsToPixelBounds bm geo =
      ⟨clamp ⌊(geo.West + 180) / 360 * (bm.width : ℝ)⌋ 0 bm.width,
       clamp ⌊(90 - geo.North) / 180 * (bm.height : ℝ)⌋ 0 bm.height,
       clamp ⌊(geo.East + 180) / 360 * (bm.width : ℝ)⌋ 0 bm.width,
       clamp ⌊(90 - geo.South) / 180 * (bm.height : ℝ)⌋ 0 bm.height⟩ := by
  have hwR : (0:ℝ) ≤ (bm.width : ℝ) := by exact_mod_cast hw
  have hhR : (0:ℝ) ≤ (bm.height : ℝ) := by exact_mod_cast hh
  have hgW : lonToPixelX geo.West bm.width = ⌊(geo.West + 180) / 360 * (bm.width : ℝ)⌋ :=
    goTrunc_eq_floor (mul_nonneg (div_nonneg (by linarith) (by norm_num)) hwR)
  have hgE : lonToPixelX geo.East bm.width = ⌊(geo.East + 180) / 360 * (bm.width : ℝ)⌋ :=
    goTrunc_eq_floor (mul_nonneg (div_nonneg (by linarith) (by norm_num)) hwR)
  have hgN : latToPixelY geo.North bm.height = ⌊(90 - geo.North) / 180 * (bm.height : ℝ)⌋ :=
    goTrunc_eq_floor (mul_nonneg (div_nonneg (by linarith) (by norm_num)) hhR)
  have hgS : latToPixelY geo.South bm.height = ⌊(90 - geo.South) / 180 * (bm.height : ℝ)⌋ :=
    goTrunc_eq_floor (mul_nonneg (div_nonneg (by linarith) (by norm_num)) hhR)
  have hx01 : clamp ⌊(geo.West + 180) / 360 * (bm.width : ℝ)⌋ 0 bm.width ≤
      clamp ⌊(geo.East + 180) / 360 * (bm.width : ℝ)⌋ 0 bm.width :=
    clamp_mono hw (Int.floor_le_floor
      (mul_le_mul_of_nonneg_right (by linarith) hwR))
  have hy01 : clamp ⌊(90 - geo.North) / 180 * (bm.height : ℝ)⌋ 0 bm.height ≤
      clamp ⌊(90 - geo.South) / 180 * (bm.height : ℝ)⌋ 0 bm.height :=
    clamp_mono hh (Int.floor_le_floor
      (mul_le_mul_of_nonneg_right (by linarith) hhR))
  unfold geoBoundsToPixelBounds
  rw [hgW, hgE, hgN, hgS, imageRect_eq, min_eq_left hx01, min_eq_left hy01,
    max_eq_right hx01, max_eq_right hy01]

/-- Claim C7, witness: the conversion evaluated on the quarter-world box
`(-180, 0) × (0, 45)` over a 4×2 raster. -/
theorem C7_geoBounds_formula_witness :
    geoBoundsToPixelBounds testMap ⟨-180, 0, 0, 45⟩ = ⟨0, 0, 2, 1⟩ := by
  have h := C7_geoBounds_formula testMap ⟨-180, 0, 0, 45⟩ (by norm_num) (by norm_num)
    (by norm_num) (by norm_num) (by norm_num) (by norm_num)
    (by norm_num [testMap]) (by norm_num [testMap])
  rw [h]
  norm_num [clamp, testMap]

/-- Claim C8 (amended): `ExtractTile` fails exactly when `TileBounds`
fails, and no step after the initial validation can produce an error; the
validation failure is propagated as the wrapped cause of an
"invalid tile coordinates" context error (`fmt.Errorf` with `%w`) rather
than surfacing verbatim as the same error value. -/
theorem C8_error_propagation (bm : BaseMap) (z x y : ℤ) :
    ((∃ e, ExtractTile bm z x y = .error e) ↔ (∃ e, TileBounds z x y = .error e)) ∧
    (∀ e, TileBounds z x y = .error e →
      ExtractTile bm z x y = .error (.wrapInvalidTileCoordinates e)) ∧
    (∀ b, TileBounds z x y = .ok b → ∃ t, ExtractTile bm z x y = .ok t) := by
  cases hTB : TileBounds z x y with
  | error e =>
      have hE : ExtractTile bm z x y = .error (.wrapInvalidTileCoordinates e) := by
        unfold ExtractTile
        rw [hTB]
      refine ⟨⟨fun _ => ⟨e, rfl⟩, fun _ => ⟨_, hE⟩⟩, ?_, ?_⟩
      · intro e' he'
        injection he' with h
        rw [← h]
        exact hE
      · intro b hb
        simp at hb
  | ok b =>
      have hE : ExtractTile bm z x y = .ok (catmullRomScale TileSize TileSize
          (extractRegion bm (geoBoundsToPixelBounds bm b))) := by
        unfold ExtractTile
        rw [hTB]
      refine ⟨⟨?_, ?_⟩, ?_, ?_⟩
      · rintro ⟨e, he⟩
        rw [hE] at he
        simp at he
      · rintro ⟨e, he⟩
        simp at he
      · intro e he
        simp at he
      · intro b' _
        exact ⟨_, hE⟩

/-- Claim C8, counterexample: at `z = -1` the `TileBounds` failure does not
surface verbatim — `ExtractTile` returns it wrapped in the
"invalid tile coordinates" context, a different error value. -/
theorem C8_error_propagation_counterexample :
    ExtractTile testMap (-1) 0 0 =
      .error (.wrapInvalidTileCoordinates (.invalidZoom (-1))) ∧
    TileBounds (-1) 0 0 = .error (.invalidZoom (-1)) ∧
    Err.wrapInvalidTileCoordinates (.invalidZoom (-1)) ≠ Err.invalidZoom (-1) := by
  have hTB : TileBounds (-1) 0 0 = .error (.invalidZoom (-1)) :=
    tileBounds_eq_of_neg (by norm_num)
  refine ⟨?_, hTB, by simp⟩
  unfold ExtractTile
  rw [hTB]

/-- Claim C8, witness: the propagation rule applied at `z = -2`. -/
theorem C8_error_propagation_witness :
    ExtractTile testMap (-2) 0 0 =
      .error (.wrapInvalidTileCoordinates (.invalidZoom (-2))) :=
  (C8_error_propagation testMap (-2) 0 0).2.1 _ (tileBounds_eq_of_neg (by norm_num))

/-- Claim C10: for every bounds with `West ≤ East` and `South ≤ North` and
every raster with non-negative dimensions, the pixel rectangle produced by
`geoBoundsToPixelBounds` lies within `[0, width] × [0, height]` and is
never inverted: `left ≤ right` and `top ≤ bottom`, so the region handed to
extraction and resampling is at worst degenerate, never of negative
extent. -/
theorem C10_pixelRegion_wellformed (bm : BaseMap) (geo : Bounds)
    (_hWE : geo.West ≤ geo.East) (_hSN : geo.South ≤ geo.North)
    (hw : 0 ≤ bm.width) (hh : 0 ≤ bm.height) :
    (geoBoundsToPixelBounds bm geo).minX ≤ (geoBoundsToPixelBounds bm geo).maxX ∧
    (geoBoundsToPixelBounds bm geo).minY ≤ (geoBoundsToPixelBounds bm geo).maxY ∧
    0 ≤ (geoBoundsToPixelBounds bm geo).minX ∧
    (geoBoundsToPixelBounds bm geo).maxX ≤ bm.width ∧
    0 ≤ (geoBoundsToPixelBounds bm geo).minY ∧
    (geoBoundsToPixelBounds bm geo).maxY ≤ bm.height := by
  have haM := clamp_mem (v := lonToPixelX geo.West bm.width) hw
  have hcM := clamp_mem (v := lonToPixelX geo.East bm.width) hw
  have hbM := clamp_mem (v := latToPixelY geo.North bm.height) hh
  have hdM := clamp_mem (v := latToPixelY geo.South bm.height) hh
  unfold geoBoundsToPixelBounds
  rw [imageRect_eq]
  exact ⟨min_le_max, min_le_max, le_min haM.1 hcM.1, max_le haM.2 hcM.2,
    le_min hbM.1 hdM.1, max_le hbM.2 hdM.2⟩

/-- Claim C10, witness: well-formedness on a concrete box over the test
raster. -/
theorem C10_pixelRegion_wellformed_witness :
    (geoBoundsToPixelBounds testMap ⟨-90, -10, 40, 30⟩).minX ≤
      (geoBoundsToPixelBounds testMap ⟨-90, -10, 40, 30⟩).maxX ∧
    (geoBoundsToPixelBounds testMap ⟨-90, -10, 40, 30⟩).minY ≤
      (geoBoundsToPixelBounds testMap ⟨-90, -10, 40, 30⟩).maxY ∧
    0 ≤ (geoBoundsToPixelBounds testMap ⟨-90, -10, 40, 30⟩).minX ∧
    (geoBoundsToPixelBounds testMap ⟨-90, -10, 40, 30⟩).maxX ≤ testMap.width ∧
    0 ≤ (geoBoundsToPixelBounds testMap ⟨-90, -10, 40, 30⟩).minY ∧
    (geoBoundsToPixelBounds testMap ⟨-90, -10, 40, 30⟩).maxY ≤ testMap.height :=
  C10_pixelRegion_wellformed testMap ⟨-90, -10, 40, 30⟩ (by norm_num) (by norm_num)
    (by norm_num [testMap]) (by norm_num [testMap])

end XyzTiles
